import Mathlib

/-!
# Verification of the `tea` request/cache library

Shallow embedding of the cache subsystem (`src/tea/cache/storage.ts`,
`src/tea/cache/manager.ts`), the URL / retry utilities
(`src/tea/utils/url.ts`, `src/tea/utils/retry.ts`, both embedded in
`src/unnamed/part_003`), and the request pipeline / `invalidateQueries`
(the `core.ts` source embedded in `Usage.md`).

Modelling conventions:
* `Date.now()` is a `Nat` passed explicitly (`now`); all reads in the claims
  happen at or after the matching write, so JS `now - timestamp` agrees with
  truncated `Nat` subtraction.
* The browser `localStorage` is a shared association list threaded explicitly;
  JSON serialization of cache entries is lossless round-trip (the spec demands
  this), so entries are stored directly.
* `typeof window !== 'undefined'` is the explicit `isClient : Bool` flag.
-/

namespace Tea

/-- JS `Map` / `localStorage` lookup over an association list
(first binding wins; the stores keep keys unique). -/
def ALget (key : String) : List (String × β) → Option β
  | [] => none
  | (k, v) :: rest => if k = key then some v else ALget key rest

/-- JS `Map.set` / `localStorage.setItem`: replace the binding in place when
the key is present (JS maps keep the original insertion position), append
otherwise. -/
def ALset (key : String) (val : β) : List (String × β) → List (String × β)
  | [] => [(key, val)]
  | (k, v) :: rest =>
    if k = key then (k, val) :: rest else (k, v) :: ALset key val rest

/-- JS `String.prototype.startsWith`, on the character level. -/
def strStartsWith (p s : String) : Bool :=
  p.data.isPrefixOf s.data

/-- JS `String.prototype.slice(n)` (drop the first `n` characters). -/
def strDrop (s : String) (n : Nat) : String :=
  ⟨s.data.drop n⟩

/-- JS `String#length`, on the character level. -/
def strLen (s : String) : Nat :=
  s.data.length

/-! ## Cache data model (`src/tea/cache/types.ts`) -/

/-- `CacheEntry<T> = { data: T, timestamp: number }`. -/
structure CacheEntry (α : Type) where
  data : α
  timestamp : Nat
  deriving Repr, DecidableEq

/-- Freshness tag of `CacheState`. -/
inductive Freshness where
  | fresh
  | stale
  deriving Repr, DecidableEq

/-- `CacheState<T> = { data: T, timestamp: number, status: 'fresh'|'stale' }`. -/
structure CacheState (α : Type) where
  data : α
  timestamp : Nat
  status : Freshness
  deriving Repr, DecidableEq

/-- `CacheStrategy = 'none' | 'memory' | 'local-storage'`
(`src/tea/types/config.ts`). -/
inductive CacheStrategy where
  | memory
  | noCache
  | localStorage
  deriving Repr, DecidableEq

/-- Backing state of `MemoryStorage<T>`: a private `Map<string, CacheEntry<T>>`. -/
abbrev MemoryStore (α : Type) := List (String × CacheEntry α)

/-- The shared browser `localStorage` contents (only the entries relevant to the
model: key/value bindings, values already decoded, see the header comment). -/
abbrev LocalStore (α : Type) := List (String × CacheEntry α)

namespace MemoryStorage

def get (st : MemoryStore α) (key : String) : Option (CacheEntry α) :=
  ALget key st

def set (st : MemoryStore α) (key : String) (value : CacheEntry α) : MemoryStore α :=
  ALset key value st

/-- `forEach` visits the map in insertion order; reified as the entry list. -/
def entries (st : MemoryStore α) : List (String × CacheEntry α) := st

end MemoryStorage

namespace LocalStorage

/-- `private prefix = 'tea-cache:'`. -/
def keyNamespace : String := "tea-cache:"

/-- `get`: `null` off-client, otherwise `localStorage.getItem(prefix + key)`
(JSON parse failures yield `null`; the model stores decoded entries). -/
def get (ls : LocalStore α) (isClient : Bool) (key : String) :
    Option (CacheEntry α) :=
  if isClient then ALget (keyNamespace ++ key) ls else none

/-- `set`: no-op off-client, otherwise `localStorage.setItem(prefix + key, ...)`
(write failures are swallowed; the model has none). -/
def set (ls : LocalStore α) (isClient : Bool) (key : String)
    (value : CacheEntry α) : LocalStore α :=
  if isClient then ALset (keyNamespace ++ key) value ls else ls

/-- `forEach`: iterate `Object.keys(localStorage)` filtered to the namespace,
re-reading each entry through `get` and reporting the un-prefixed key. -/
def entries (ls : LocalStore α) (isClient : Bool) :
    List (String × CacheEntry α) :=
  if isClient then
    ls.filterMap (fun kv =>
      if strStartsWith keyNamespace kv.1 then
        (ALget kv.1 ls).map (fun e => (strDrop kv.1 (strLen keyNamespace), e))
      else none)
  else []

end LocalStorage

/-! ## `CacheManager` (`src/tea/cache/manager.ts`) -/

/-- State of one `CacheManager<TData>`: strategy and options fixed at
construction, plus the backing `MemoryStorage` used when the strategy is not
`'local-storage'`. `hasRefetch` records whether an `onRefetch` callback was
supplied. -/
structure CacheManager (α : Type) where
  strategy : CacheStrategy
  staleTime : Nat
  refetchOnMount : Bool := false
  refetchOnWindowFocus : Bool := false
  hasRefetch : Bool := false
  mem : MemoryStore α := []
  deriving Repr, DecidableEq

namespace CacheManager

/-- `this.cache.get(key)`, dispatched on the construction-time strategy. -/
def cacheGet (m : CacheManager α) (ls : LocalStore α) (isClient : Bool)
    (key : String) : Option (CacheEntry α) :=
  if m.strategy = .localStorage then LocalStorage.get ls isClient key
  else MemoryStorage.get m.mem key

/-- `this.cache.set(key, value)`, dispatched on the strategy. -/
def cacheSet (m : CacheManager α) (ls : LocalStore α) (isClient : Bool)
    (key : String) (value : CacheEntry α) : CacheManager α × LocalStore α :=
  if m.strategy = .localStorage then (m, LocalStorage.set ls isClient key value)
  else ({ m with mem := MemoryStorage.set m.mem key value }, ls)

/-- `forEach` over the backing storage, reified as an entry list. -/
def cacheEntries (m : CacheManager α) (ls : LocalStore α) (isClient : Bool) :
    List (String × CacheEntry α) :=
  if m.strategy = .localStorage then LocalStorage.entries ls isClient
  else MemoryStorage.entries m.mem

/-- `isStale`: `Date.now() - entry.timestamp > this.options.staleTime`. -/
def isStale (m : CacheManager α) (timestamp now : Nat) : Bool :=
  decide (now - timestamp > m.staleTime)

/-- `set(key, data)`: wrap with the current timestamp, full overwrite. -/
def set (m : CacheManager α) (ls : LocalStore α) (isClient : Bool)
    (key : String) (data : α) (now : Nat) : CacheManager α × LocalStore α :=
  cacheSet m ls isClient key { data := data, timestamp := now }

/-- `get(key)`: read the raw entry and tag it with read-time freshness. -/
def get (m : CacheManager α) (ls : LocalStore α) (isClient : Bool)
    (key : String) (now : Nat) : Option (CacheState α) :=
  match cacheGet m ls isClient key with
  | none => none
  | some entry =>
    some { data := entry.data, timestamp := entry.timestamp,
           status := if m.isStale entry.timestamp now then .stale else .fresh }

/-- `invalidate(key)`: re-write the existing entry unchanged (no-op when the
key holds nothing). -/
def invalidate (m : CacheManager α) (ls : LocalStore α) (isClient : Bool)
    (key : String) : CacheManager α × LocalStore α :=
  match cacheGet m ls isClient key with
  | some entry => cacheSet m ls isClient key entry
  | none => (m, ls)

/-- `clear()`: replace the backing storage with a fresh instance of the same
strategy. A fresh `MemoryStorage` is an empty map; a fresh `LocalStorage`
object carries no state of its own, so the shared browser storage is left
untouched. -/
def clear (m : CacheManager α) (ls : LocalStore α) :
    CacheManager α × LocalStore α :=
  ({ m with mem := [] }, ls)

/-- Auxiliary: re-write each key of `todo` into `l` with its timestamp forced
to `now` (the storage-level content of phase (a) of `invalidateAndRefetch`). -/
def stampAll (now : Nat) (todo l : List (String × CacheEntry α)) :
    List (String × CacheEntry α) :=
  todo.foldl (fun acc kv => ALset kv.1 { data := kv.2.data, timestamp := now } acc) l

/-- `invalidateAndRefetch()`: phase (a) snapshots all entries and re-writes
each with `timestamp := Date.now()`; phase (b) sequentially awaits the refetch
callback on each snapshotted key (reified as the returned key list, empty when
no callback is configured). -/
def invalidateAndRefetch (m : CacheManager α) (ls : LocalStore α)
    (isClient : Bool) (now : Nat) :
    (CacheManager α × LocalStore α) × List String :=
  let entries := cacheEntries m ls isClient
  let st := entries.foldl
    (fun st kv => cacheSet st.1 st.2 isClient kv.1 { data := kv.2.data, timestamp := now })
    (m, ls)
  (st, if m.hasRefetch then entries.map Prod.fst else [])

end CacheManager

/-! ## Retry executor (`src/tea/utils/retry.ts`, `src/unnamed/part_003`)

```
let lastError = new Error('Request failed');
for (let attempt = 0; attempt < config.attempts; attempt++) {
  try { return await fn(); }
  catch (error) {
    lastError = ...;
    await new Promise(r => setTimeout(r, config.delay * (attempt + 1)));
  }
}
throw lastError;
```

The asynchronous operation is reified as `fn : Nat → Except ε τ`, giving the
outcome of its `i`-th invocation (0-indexed). The model returns the final
outcome, the number of invocations performed, and the list of induced
`setTimeout` delays in order. -/

/-- One loop tail of `retryRequest`: `attempt` is the current 0-based index,
`remaining` the attempts left, `lastError` the error seen so far. -/
def retryGo (fn : Nat → Except ε τ) (delay : Nat) :
    Nat → Nat → ε → Except ε τ × Nat × List Nat
  | _, 0, lastError => (.error lastError, 0, [])
  | attempt, remaining + 1, _lastError =>
    match fn attempt with
    | .ok v => (.ok v, 1, [])
    | .error e =>
      let rest := retryGo fn delay (attempt + 1) remaining e
      (rest.1, rest.2.1 + 1, delay * (attempt + 1) :: rest.2.2)

/-- `retryRequest(fn, {attempts, delay})`; `e₀` models the initial
`new Error('Request failed')`. -/
def retryRequest (fn : Nat → Except ε τ) (attempts delay : Nat) (e₀ : ε) :
    Except ε τ × Nat × List Nat :=
  retryGo fn delay 0 attempts e₀

/-! ## URL utilities (`src/tea/utils/url.ts`, `src/unnamed/part_003`) -/

/-- Hex digit used by percent-encoding (`encodeURIComponent` emits uppercase). -/
def hexDigitUpper (n : Nat) : Char :=
  if n < 10 then Char.ofNat (48 + n) else Char.ofNat (55 + n)

/-- UTF-8 byte sequence of a single code point. -/
def utf8Bytes (cp : Nat) : List Nat :=
  if cp < 0x80 then [cp]
  else if cp < 0x800 then [0xC0 + cp / 64, 0x80 + cp % 64]
  else if cp < 0x10000 then
    [0xE0 + cp / 4096, 0x80 + cp / 64 % 64, 0x80 + cp % 64]
  else
    [0xF0 + cp / 262144, 0x80 + cp / 4096 % 64, 0x80 + cp / 64 % 64,
     0x80 + cp % 64]

/-- Characters `encodeURIComponent` leaves unescaped:
`A-Z a-z 0-9 - _ . ! ~ * ' ( )`. -/
def uriUnreserved (c : Char) : Bool :=
  (65 ≤ c.toNat && c.toNat ≤ 90) || (97 ≤ c.toNat && c.toNat ≤ 122) ||
  (48 ≤ c.toNat && c.toNat ≤ 57) ||
  c.toNat = 45 || c.toNat = 95 || c.toNat = 46 || c.toNat = 33 ||
  c.toNat = 126 || c.toNat = 42 || c.toNat = 39 || c.toNat = 40 ||
  c.toNat = 41

/-- `encodeURIComponent` on one character. -/
def encodeURIChar (c : Char) : List Char :=
  if uriUnreserved c then [c]
  else (utf8Bytes c.toNat).flatMap
    (fun b => ['%', hexDigitUpper (b / 16), hexDigitUpper (b % 16)])

/-- JS `encodeURIComponent`. -/
def encodeURIComponent (s : String) : String :=
  ⟨s.data.flatMap encodeURIChar⟩

/-- First occurrence of `pat` in `s`: `some (before, after)` splits around it. -/
def splitFirst (s pat : List Char) : Option (List Char × List Char) :=
  match s with
  | [] => if pat = [] then some ([], []) else none
  | c :: rest =>
    if pat.isPrefixOf s then some ([], s.drop pat.length)
    else (splitFirst rest pat).map (fun ba => (c :: ba.1, ba.2))

/-- JS `String.prototype.replace` with a string pattern: replaces only the
first occurrence, returns the string unchanged when the pattern is absent. -/
def replaceFirst (s pat rep : String) : String :=
  match splitFirst s.data pat.data with
  | none => s
  | some ba => ⟨ba.1⟩ ++ rep ++ ⟨ba.2⟩

/-- `parseRoute(route, params?)`: for each supplied entry `[key, value]`
(in object enumeration order) replace the first occurrence of `":" + key`
with `encodeURIComponent(String(value))`; `undefined` params leave the route
untouched. Values are modelled as strings (`String(value)` already applied). -/
def parseRoute (route : String) (params : Option (List (String × String))) :
    String :=
  match params with
  | none => route
  | some ps =>
    ps.foldl (fun url kv => replaceFirst url (":" ++ kv.1)
      (encodeURIComponent kv.2)) route

/-- `appendQueryParams(url, query?)`: append `key=value` pairs for every entry
whose value is not `undefined` (`none`); values are modelled post-`String()`.
`URLSearchParams` serialization of the pairs is modelled plainly. -/
def appendQueryParams (url : String)
    (query : Option (List (String × Option String))) : String :=
  match query with
  | none => url
  | some qs =>
    let pairs := qs.filterMap (fun kv => kv.2.map (fun v => kv.1 ++ "=" ++ v))
    match pairs with
    | [] => url
    | _ => url ++ "?" ++ String.intercalate "&" pairs

/-! ## Cache key (`core.ts` in `Usage.md`, line 453)

`const cacheKey = JSON.stringify({ routeName, params, query });`

The object literal fixes the member order `routeName, params, query`;
`JSON.stringify` omits members whose value is `undefined` (both the optional
`params` / `query` members and `undefined`-valued entries inside `query`).
Param and query values are modelled as strings. -/

/-- Opening brace character (written via its code point). -/
def lbrace : Char := Char.ofNat 123

/-- Closing brace character. -/
def rbrace : Char := Char.ofNat 125

/-- Lowercase hex digit as emitted by `JSON.stringify` Unicode escapes. -/
def hexDigitLower (n : Nat) : Char :=
  if n < 10 then Char.ofNat (48 + n) else Char.ofNat (87 + n)

/-- `JSON.stringify` string escaping, one character at a time: `\"`, `\\`,
the short escapes for control characters, `\u00XX` for the remaining
control characters, everything else verbatim. -/
def jsonEscapeChar (c : Char) : List Char :=
  if c = '"' then ['\\', '"']
  else if c = '\\' then ['\\', '\\']
  else if c = Char.ofNat 8 then ['\\', 'b']
  else if c = Char.ofNat 9 then ['\\', 't']
  else if c = Char.ofNat 10 then ['\\', 'n']
  else if c = Char.ofNat 12 then ['\\', 'f']
  else if c = Char.ofNat 13 then ['\\', 'r']
  else if c.toNat < 32 then
    ['\\', 'u', '0', '0', hexDigitLower (c.toNat / 16), hexDigitLower (c.toNat % 16)]
  else [c]

/-- A JSON string literal (quotes plus escaped body), as a character list. -/
def jsonStringChars (s : String) : List Char :=
  '"' :: (s.data.flatMap jsonEscapeChar ++ ['"'])

/-- One `"key":"value"` member. -/
def jsonPairChars (kv : String × String) : List Char :=
  jsonStringChars kv.1 ++ ':' :: jsonStringChars kv.2

/-- Comma-separated members. -/
def jsonPairsChars : List (String × String) → List Char
  | [] => []
  | [p] => jsonPairChars p
  | p :: rest => jsonPairChars p ++ ',' :: jsonPairsChars rest

/-- A JSON object of string members, in the given enumeration order. -/
def jsonObjChars (ps : List (String × String)) : List Char :=
  lbrace :: (jsonPairsChars ps ++ [rbrace])

/-- `JSON.stringify` drops `undefined`-valued entries inside an object; this
canonicalizes a query record accordingly. -/
def queryCanon (qs : List (String × Option String)) : List (String × String) :=
  qs.filterMap (fun kv => kv.2.map (fun v => (kv.1, v)))

/-- `JSON.stringify({ routeName, params, query })` as a character list;
`params` / `query` members are omitted when `undefined`. -/
def cacheKeyChars (routeName : String)
    (params query : Option (List (String × String))) : List Char :=
  lbrace :: (jsonStringChars "routeName" ++ ':' :: jsonStringChars routeName
    ++ (match params with
        | none => []
        | some ps => ',' :: (jsonStringChars "params" ++ ':' :: jsonObjChars ps))
    ++ (match query with
        | none => []
        | some qs => ',' :: (jsonStringChars "query" ++ ':' :: jsonObjChars qs))
    ++ [rbrace])

/-- The cache key string. -/
def cacheKey (routeName : String)
    (params query : Option (List (String × String))) : String :=
  ⟨cacheKeyChars routeName params query⟩

/-! ### A decoder for the cache key, used to prove it collision-free. -/

/-- Value of one hex digit. -/
def hexVal (c : Char) : Option Nat :=
  if 48 ≤ c.toNat ∧ c.toNat ≤ 57 then some (c.toNat - 48)
  else if 97 ≤ c.toNat ∧ c.toNat ≤ 102 then some (c.toNat - 87)
  else if 65 ≤ c.toNat ∧ c.toNat ≤ 70 then some (c.toNat - 55)
  else none

/-- The character encoded by a short escape `\x`. -/
def jsonUnescapeChar (d : Char) : Option Char :=
  if d = '"' then some '"'
  else if d = '\\' then some '\\'
  else if d = 'b' then some (Char.ofNat 8)
  else if d = 't' then some (Char.ofNat 9)
  else if d = 'n' then some (Char.ofNat 10)
  else if d = 'f' then some (Char.ofNat 12)
  else if d = 'r' then some (Char.ofNat 13)
  else none

/-- Decode one unit of a JSON string body after a backslash: a short escape,
or `u` followed by four hex digits. Returns the decoded character and the
remaining input. -/
def readHex : List Char → Option (Option Char × List Char)
  | h1 :: h2 :: h3 :: h4 :: rest3 =>
    match hexVal h1, hexVal h2, hexVal h3, hexVal h4 with
    | some a, some b, some c', some e =>
      some (some (Char.ofNat (((a * 16 + b) * 16 + c') * 16 + e)), rest3)
    | _, _, _, _ => none
  | _ => none

/-- Decode the character following a backslash. -/
def readEscape : List Char → Option (Option Char × List Char)
  | [] => none
  | d :: rest2 =>
    match jsonUnescapeChar d with
    | some c' => some (some c', rest2)
    | none => if d = 'u' then readHex rest2 else none

/-- Decode one unit of a JSON string body: `none` signals the closing quote,
`some c` a decoded character. -/
def readUnit : List Char → Option (Option Char × List Char)
  | [] => none
  | c :: rest =>
    if c = '"' then some (none, rest)
    else if c = '\\' then readEscape rest
    else some (some c, rest)

/-- Decode a JSON string body up to (and consuming) the closing quote,
returning the decoded characters and the remaining input; `fuel` bounds the
number of decoded characters. -/
def unescBody : Nat → List Char → Option (List Char × List Char)
  | 0, _ => none
  | fuel + 1, l =>
    (readUnit l).bind (fun ur =>
      match ur.1 with
      | none => some ([], ur.2)
      | some c => (unescBody fuel ur.2).map (fun pr => (c :: pr.1, pr.2)))

/-- Parse a JSON string literal (opening quote, body, closing quote). -/
def parseJString (fuel : Nat) (l : List Char) :
    Option (List Char × List Char) :=
  match l with
  | [] => none
  | c :: rest => if c = '"' then unescBody fuel rest else none

/-- Parse one or more comma-separated `"k":"v"` members followed by a closing
brace (which is consumed); `sfuel` bounds string lengths, `pfuel` the number
of members. -/
def parsePairs (sfuel : Nat) : Nat → List Char → Option (List (String × String) × List Char)
  | 0, _ => none
  | pfuel + 1, l =>
    (parseJString sfuel l).bind (fun kr =>
      match kr.2 with
      | [] => none
      | c1 :: r2 =>
        if c1 = ':' then
          (parseJString sfuel r2).bind (fun vr =>
            match vr.2 with
            | [] => none
            | c2 :: r4 =>
              if c2 = ',' then
                (parsePairs sfuel pfuel r4).map
                  (fun pr => ((⟨kr.1⟩, ⟨vr.1⟩) :: pr.1, pr.2))
              else if c2 = rbrace then some ([(⟨kr.1⟩, ⟨vr.1⟩)], r4)
              else none)
        else none)

/-- Parse a JSON object of string members (consuming the closing brace). -/
def parseObj (sfuel pfuel : Nat) (l : List Char) :
    Option (List (String × String) × List Char) :=
  match l with
  | [] => none
  | c :: rest =>
    if c = lbrace then
      match rest with
      | [] => none
      | d :: r2 => if d = rbrace then some ([], r2) else parsePairs sfuel pfuel rest
    else none

/-- Consume an expected literal prefix. -/
def dropLit : List Char → List Char → Option (List Char)
  | [], l => some l
  | c :: cs, l =>
    match l with
    | [] => none
    | d :: ds => if d = c then dropLit cs ds else none

/-- The literal opening the key: brace, quoted `routeName`, colon. -/
def routeLitChars : List Char := lbrace :: (jsonStringChars "routeName" ++ [':'])

/-- The literal introducing the `params` member. -/
def paramsLitChars : List Char := ',' :: (jsonStringChars "params" ++ [':'])

/-- The literal introducing the `query` member. -/
def queryLitChars : List Char := ',' :: (jsonStringChars "query" ++ [':'])

/-- After a (possible) `params` member: consume a parsed `query` object that
must be followed by exactly the closing brace. -/
def finishQuery (po : Option (List (String × String)))
    (pr : Option (List (String × String) × List Char)) :
    Option (Option (List (String × String)) × Option (List (String × String))) :=
  match pr with
  | some (qs, [c3]) => if c3 = rbrace then some (po, some qs) else none
  | _ => none

/-- After the `params` object: either the closing brace ends the input, or a
`query` member follows. -/
def finishTail (sfuel pfuel : Nat) (ps : List (String × String)) (r3 : List Char) :
    Option (Option (List (String × String)) × Option (List (String × String))) :=
  match r3 with
  | [] => none
  | c2 :: rest2 =>
    if c2 = rbrace then (if rest2 = [] then some (some ps, none) else none)
    else
      match dropLit queryLitChars r3 with
      | some r4 => finishQuery (some ps) (parseObj sfuel pfuel r4)
      | none => none

/-- Dispatch on the outcome of parsing the `params` object. -/
def finishAfterParams (sfuel pfuel : Nat)
    (pr : Option (List (String × String) × List Char)) :
    Option (Option (List (String × String)) × Option (List (String × String))) :=
  match pr with
  | none => none
  | some pr => finishTail sfuel pfuel pr.1 pr.2

/-- Parse `params` / `query` members (if present) plus the final brace,
requiring the input to be fully consumed. -/
def finishKey (sfuel pfuel : Nat) (r1 : List Char) :
    Option (Option (List (String × String)) × Option (List (String × String))) :=
  match r1 with
  | [] => none
  | c :: rest =>
    if c = rbrace then (if rest = [] then some (none, none) else none)
    else
      match dropLit paramsLitChars r1 with
      | some r2 => finishAfterParams sfuel pfuel (parseObj sfuel pfuel r2)
      | none =>
        match dropLit queryLitChars r1 with
        | some r2 => finishQuery none (parseObj sfuel pfuel r2)
        | none => none

/-- Full decoder for `cacheKey` output. -/
def decodeCacheKey (sfuel pfuel : Nat) (l : List Char) :
    Option (String × Option (List (String × String)) ×
      Option (List (String × String))) :=
  match dropLit routeLitChars l with
  | none => none
  | some r =>
    match parseJString sfuel r with
    | none => none
    | some (rn, r1) =>
      (finishKey sfuel pfuel r1).map (fun pr => (⟨rn⟩, pr.1, pr.2))

/-- A fuel bound for an assoc list of strings: member count plus every key and
value length, plus one per entry. -/
def pairBound (ps : List (String × String)) : Nat :=
  ps.foldr (fun kv acc => kv.1.data.length + kv.2.data.length + 1 + acc) 0


/-! ## Request pipeline (`core.ts` in `Usage.md`, lines 422-531)

`fetch` and the JSON body type are oracles: `J` stands for parsed JSON
values, a route's `schema.response.parse` is a function `J → Except String α`,
and the network is a function from (url, request descriptor) to a
`FetchResponse`. WHATWG URL resolution of a root-relative path against an
origin-only base is modelled as string concatenation. -/

/-- `TeaConfig.cache` (all members optional). -/
structure CacheConfig where
  strategy : Option CacheStrategy := none
  staleTime : Option Nat := none
  refetchOnMount : Option Bool := none
  refetchOnWindowFocus : Option Bool := none

/-- `TeaConfig.retry` (all members optional). -/
structure RetryConfig where
  attempts : Option Nat := none
  delay : Option Nat := none

/-- The request descriptor handed to `fetch` (headers later entries win on
key collision, mirroring object spread). -/
structure TeaRequestConfig where
  method : String
  headers : List (String × String)
  body : Option String
  deriving Repr, DecidableEq

/-- What `fetch` resolved to: HTTP status plus the JSON body when the payload
parses (`json = none` models a body `response.json()` rejects on). -/
structure FetchResponse (J : Type) where
  ok : Bool
  status : Nat
  statusText : String
  json : Option J

/-- One route definition: method, path template, and the response schema
reified as its `parse` function. -/
structure RouteDef (J α : Type) where
  method : String
  path : String
  parse : J → Except String α

/-- Client configuration (`createTea`'s `fullConfig`). -/
structure TeaConfig (J : Type) where
  baseUrl : String
  cache : Option CacheConfig := none
  requestInterceptor : Option (TeaRequestConfig → TeaRequestConfig) := none
  responseInterceptor : Option (J → J) := none
  retry : Option RetryConfig := none

/-- The module-level `cacheManagers` map (one `CacheManager` per cache key). -/
abbrev Managers (α : Type) := List (String × CacheManager α)

/-- Observable side effects of one pipeline call. -/
structure Effects where
  fetchCount : Nat := 0
  fetchedUrls : List String := []
  requestInterceptorCalls : Nat := 0
  responseInterceptorCalls : Nat := 0
  deriving Repr, DecidableEq

/-- Pointwise accumulation of effects across retry attempts. -/
def Effects.add (a b : Effects) : Effects :=
  { fetchCount := a.fetchCount + b.fetchCount,
    fetchedUrls := a.fetchedUrls ++ b.fetchedUrls,
    requestInterceptorCalls := a.requestInterceptorCalls + b.requestInterceptorCalls,
    responseInterceptorCalls := a.responseInterceptorCalls + b.responseInterceptorCalls }

/-- The manager constructed on a cache miss of the managers map
(`new CacheManager(strategy ?? 'memory', {staleTime ?? 0, ...}, refetch)`). -/
def CacheManager.fromConfig (cfg : Option CacheConfig) : CacheManager α :=
  { strategy := (cfg.bind (·.strategy)).getD .memory,
    staleTime := (cfg.bind (·.staleTime)).getD 0,
    refetchOnMount := (cfg.bind (·.refetchOnMount)).getD false,
    refetchOnWindowFocus := (cfg.bind (·.refetchOnWindowFocus)).getD false,
    hasRefetch := true,
    mem := [] }

/-- `executeRequest`: build the URL and request descriptor, apply the request
interceptor, fetch, surface HTTP / parse / validation failures, apply the
response interceptor, validate, write back to the cache when caching is on. -/
def executeRequest (cfg : TeaConfig J) (route : RouteDef J α)
    (routeName : String) (params : Option (List (String × String)))
    (query : Option (List (String × Option String))) (body : Option String)
    (headers : List (String × String)) (cacheEnabled : Bool)
    (fetchFn : String → TeaRequestConfig → FetchResponse J)
    (mgrs : Managers α) (ls : LocalStore α) (isClient : Bool) (now : Nat) :
    Except String α × Managers α × LocalStore α × Effects :=
  let url := cfg.baseUrl ++ appendQueryParams (parseRoute route.path params) query
  let requestInit : TeaRequestConfig :=
    { method := route.method,
      headers := ("Content-Type", "application/json") :: headers,
      body := body }
  let finalRequest :=
    match cfg.requestInterceptor with
    | some f => f requestInit
    | none => requestInit
  let eff : Effects :=
    { fetchCount := 1, fetchedUrls := [url],
      requestInterceptorCalls := if cfg.requestInterceptor.isSome then 1 else 0 }
  let response := fetchFn url finalRequest
  if !response.ok then
    (.error (match response.json with
      | some _ => "HTTP error (JSON error body)"
      | none => "HTTP Error " ++ toString response.status ++ ": " ++
          response.statusText), mgrs, ls, eff)
  else
    match response.json with
    | none => (.error "Failed to parse JSON response", mgrs, ls, eff)
    | some data =>
      let processed :=
        match cfg.responseInterceptor with
        | some f => f data
        | none => data
      let eff :=
        { eff with responseInterceptorCalls :=
            if cfg.responseInterceptor.isSome then 1 else 0 }
      match route.parse processed with
      | .error e => (.error ("Response validation failed: " ++ e), mgrs, ls, eff)
      | .ok validated =>
        if cacheEnabled then
          let key := cacheKey routeName params (query.map queryCanon)
          match ALget key mgrs with
          | some mgr =>
            let st := CacheManager.set mgr ls isClient key validated now
            (.ok validated, ALset key st.1 mgrs, st.2, eff)
          | none => (.ok validated, mgrs, ls, eff)
        else (.ok validated, mgrs, ls, eff)

/-- State-threading mirror of the retry loop used when `config.retry` is set:
the `i`-th attempt runs `step i` on the current state, failures feed the next
attempt, effects accumulate. -/
def retryExecGo
    (step : Nat → Managers α × LocalStore α →
      Except String α × Managers α × LocalStore α × Effects) :
    Nat → Nat → String → Managers α × LocalStore α → Effects →
    Except String α × Managers α × LocalStore α × Effects
  | _, 0, lastErr, st, effAcc => (.error lastErr, st.1, st.2, effAcc)
  | attempt, remaining + 1, _, st, effAcc =>
    let out := step attempt st
    let effAcc' := Effects.add effAcc out.2.2.2
    match out.1 with
    | .ok v => (.ok v, out.2.1, out.2.2.1, effAcc')
    | .error e => retryExecGo step (attempt + 1) remaining e (out.2.1, out.2.2.1) effAcc'

/-- Steps 3-10 of a call: execute once, or through the retry executor when
configured (`attempts ?? 3`, `delay ?? 1000`). -/
def requestFetchPhase (cfg : TeaConfig J) (route : RouteDef J α)
    (routeName : String) (params : Option (List (String × String)))
    (query : Option (List (String × Option String))) (body : Option String)
    (headers : List (String × String)) (cacheEnabled : Bool)
    (fetchFn : Nat → String → TeaRequestConfig → FetchResponse J)
    (mgrs : Managers α) (ls : LocalStore α) (isClient : Bool) (now : Nat) :
    Except String α × Managers α × LocalStore α × Effects :=
  match cfg.retry with
  | none =>
    executeRequest cfg route routeName params query body headers cacheEnabled
      (fetchFn 0) mgrs ls isClient now
  | some rc =>
    retryExecGo
      (fun i st => executeRequest cfg route routeName params query body headers
        cacheEnabled (fetchFn i) st.1 st.2 isClient now)
      0 (rc.attempts.getD 3) "Request failed" (mgrs, ls) {}

/-- The pipeline `request` function. `cacheFlag` is the trailing `cache = true`
parameter; caching applies when the client has a cache config or the flag is
set. On a fresh cache hit the cached payload is returned with no effects;
otherwise the fetch phase runs. -/
def request (cfg : TeaConfig J) (route : RouteDef J α) (routeName : String)
    (params : Option (List (String × String)))
    (query : Option (List (String × Option String))) (body : Option String)
    (headers : List (String × String)) (cacheFlag : Bool)
    (fetchFn : Nat → String → TeaRequestConfig → FetchResponse J)
    (mgrs : Managers α) (ls : LocalStore α) (isClient : Bool) (now : Nat) :
    Except String α × Managers α × LocalStore α × Effects :=
  let cacheEnabled := cfg.cache.isSome || cacheFlag
  if cacheEnabled then
    let key := cacheKey routeName params (query.map queryCanon)
    let picked : CacheManager α × Managers α :=
      match ALget key mgrs with
      | some m => (m, mgrs)
      | none =>
        let m : CacheManager α := CacheManager.fromConfig cfg.cache
        (m, ALset key m mgrs)
    match CacheManager.get picked.1 ls isClient key now with
    | some cached =>
      if cached.status = .fresh then
        (.ok cached.data, picked.2, ls, {})
      else
        requestFetchPhase cfg route routeName params query body headers
          cacheEnabled fetchFn picked.2 ls isClient now
    | none =>
      requestFetchPhase cfg route routeName params query body headers
        cacheEnabled fetchFn picked.2 ls isClient now
  else
    requestFetchPhase cfg route routeName params query body headers
      cacheEnabled fetchFn mgrs ls isClient now

/-- `invalidateQueries(queryKey)` (`core.ts` lines 548-565): for `'all'`,
run `invalidateAndRefetch` then `clear` on every manager in the module-level
map; otherwise look the argument up **as a map key** and, when found, run the
same two operations on that manager. Returns the updated managers map, the
updated browser storage, and the refetch keys triggered (in order). -/
def invalidateQueries (queryKey : String) (mgrs : Managers α)
    (ls : LocalStore α) (isClient : Bool) (now : Nat) :
    Managers α × LocalStore α × List String :=
  if queryKey = "all" then
    mgrs.foldl (fun acc kv =>
      let st := CacheManager.invalidateAndRefetch kv.2 acc.2.1 isClient now
      let cleared := CacheManager.clear st.1.1 st.1.2
      (ALset kv.1 cleared.1 acc.1, cleared.2, acc.2.2 ++ st.2))
      (mgrs, ls, [])
  else
    match ALget queryKey mgrs with
    | none => (mgrs, ls, [])
    | some m =>
      let st := CacheManager.invalidateAndRefetch m ls isClient now
      let cleared := CacheManager.clear st.1.1 st.1.2
      (ALset queryKey cleared.1 mgrs, cleared.2, st.2)

/-! ## Store lemmas -/

theorem ALget_ALset (key k : String) (val : β) (l : List (String × β)) :
    ALget k (ALset key val l) = if key = k then some val else ALget k l := by
  induction l with
  | nil =>
    by_cases h : key = k <;> simp [ALset, ALget, h]
  | cons hd tl ih =>
    obtain ⟨k', v'⟩ := hd
    by_cases h1 : k' = key
    · subst h1
      by_cases h2 : k' = k <;> simp [ALset, ALget, h2]
    · by_cases h2 : k' = k
      · subst h2
        have h3 : ¬ key = k' := fun h => h1 h.symm
        simp [ALset, ALget, h1, h3]
      · simp [ALset, ALget, h1, h2, ih]

/-- Re-writing the value already bound to a key is a no-op on the store. -/
theorem ALset_self (key : String) (val : β) (l : List (String × β))
    (h : ALget key l = some val) : ALset key val l = l := by
  induction l with
  | nil => simp [ALget] at h
  | cons hd tl ih =>
    obtain ⟨k', v'⟩ := hd
    by_cases hk : k' = key
    · subst hk
      simp [ALget] at h
      simp [ALset, h]
    · simp [ALget, hk] at h
      simp [ALset, hk, ih h]

/-! ## Claims C1, C4, C9: cache manager read/write behaviour -/

/-- **C9.** `CacheManager.invalidate(key)` re-writes the existing entry
unchanged, so the manager state, the browser storage, and hence every later
`get` outcome are exactly as before; when the key holds no entry it writes
nothing. The model states this as: `invalidate` is the identity on the
(manager, storage) state. -/
theorem C9_invalidate_noop (m : CacheManager α) (ls : LocalStore α)
    (isClient : Bool) (key : String) :
    CacheManager.invalidate m ls isClient key = (m, ls) := by
  by_cases hs : m.strategy = .localStorage
  · cases isClient with
    | false =>
      simp [CacheManager.invalidate, CacheManager.cacheGet, LocalStorage.get, hs]
    | true =>
      cases h : ALget (LocalStorage.keyNamespace ++ key) ls with
      | none =>
        simp [CacheManager.invalidate, CacheManager.cacheGet, LocalStorage.get, hs, h]
      | some e =>
        simp [CacheManager.invalidate, CacheManager.cacheGet, LocalStorage.get,
          CacheManager.cacheSet, LocalStorage.set, hs, h, ALset_self _ _ _ h]
  · cases h : ALget key m.mem with
    | none =>
      simp [CacheManager.invalidate, CacheManager.cacheGet, MemoryStorage.get, hs, h]
    | some e =>
      simp [CacheManager.invalidate, CacheManager.cacheGet, MemoryStorage.get,
        CacheManager.cacheSet, MemoryStorage.set, hs, h, ALset_self _ _ _ h]

/-- **C1.** The claim asserts `set(k, v); clear(); get(k)` is absent for both
strategies. It holds for `'memory'`, but fails for `'local-storage'` in a
browser context: `clear()` only replaces the backend object with a fresh
`LocalStorage` instance and never invokes the backend's own `clear()`, so the
entry persists under `"tea-cache:" + k` in the shared browser storage and
`get` still returns it. Evaluated here at the concrete failing input. -/
theorem C1_clear_divergence :
    (let st := CacheManager.set
        ({ strategy := .memory, staleTime := 0 } : CacheManager Nat) [] true "k" 42 0
     let st2 := CacheManager.clear st.1 st.2
     CacheManager.get st2.1 st2.2 true "k" 0 = none)
    ∧
    (let st := CacheManager.set
        ({ strategy := .localStorage, staleTime := 0 } : CacheManager Nat) [] true "k" 42 0
     let st2 := CacheManager.clear st.1 st.2
     CacheManager.get st2.1 st2.2 true "k" 0 =
       some { data := 42, timestamp := 0, status := .fresh }) := by
  exact ⟨rfl, rfl⟩

/-- **C4.** After `set(key, data)` at time `t0`, a `get(key)` at time `t0 + d`
returns the stored data with its write timestamp, reported `'fresh'` when
`d ≤ staleTime` and `'stale'` when `d > staleTime` (for the `'local-storage'`
strategy this needs a browser context, otherwise nothing is written). -/
theorem C4_set_get_staleness (strategy : CacheStrategy) (S : Nat)
    (mem : MemoryStore α) (ls : LocalStore α) (isClient : Bool) (key : String)
    (data : α) (t0 d : Nat)
    (hcli : strategy = CacheStrategy.localStorage → isClient = true) :
    (let m : CacheManager α := { strategy := strategy, staleTime := S, mem := mem }
     let st := CacheManager.set m ls isClient key data t0
     CacheManager.get st.1 st.2 isClient key (t0 + d) =
       some { data := data, timestamp := t0,
              status := if d ≤ S then .fresh else .stale }) := by
  have hts : t0 + d - t0 = d := by omega
  have hstat : (if S < d then Freshness.stale else Freshness.fresh) =
      (if d ≤ S then Freshness.fresh else Freshness.stale) := by
    by_cases h : d ≤ S
    · simp [h, Nat.not_lt.mpr h]
    · simp [h, Nat.lt_of_not_le h]
  by_cases hs : strategy = CacheStrategy.localStorage
  · have hc := hcli hs
    subst hc
    simp [CacheManager.set, CacheManager.get, CacheManager.cacheGet,
      CacheManager.cacheSet, LocalStorage.get, LocalStorage.set,
      ALget_ALset, CacheManager.isStale, hts, hstat, hs]
  · simp [CacheManager.set, CacheManager.get, CacheManager.cacheGet,
      CacheManager.cacheSet, MemoryStorage.get, MemoryStorage.set,
      ALget_ALset, CacheManager.isStale, hts, hstat, hs]

/-- Witness for C4 at a concrete input: memory strategy, `staleTime = 5`,
write at `t0 = 3`; an immediate read (`d = 0`) is fresh with the stored data. -/
theorem C4_set_get_staleness_witness :
    (let m : CacheManager Nat := { strategy := .memory, staleTime := 5, mem := [] }
     let st := CacheManager.set m [] true "users" 42 3
     CacheManager.get st.1 st.2 true "users" (3 + 0) =
       some { data := 42, timestamp := 3,
              status := if 0 ≤ 5 then .fresh else .stale }) :=
  C4_set_get_staleness CacheStrategy.memory 5 [] [] true "users" 42 3 0
    (fun h => by cases h)

/-! ## Claims C5, C8: retry executor -/

/-- Unfolding equation of `retryGo` with no attempts left. -/
theorem retryGo_zero (fn : Nat → Except ε τ) (delay attempt : Nat) (e : ε) :
    retryGo fn delay attempt 0 e = (.error e, 0, []) := rfl

/-- One-step unfolding equation of `retryGo` with attempts left. -/
theorem retryGo_succ_eq (fn : Nat → Except ε τ) (delay attempt r : Nat) (e : ε) :
    retryGo fn delay attempt (r + 1) e =
      (match fn attempt with
       | .ok v => (.ok v, 1, [])
       | .error e' =>
         let rest := retryGo fn delay (attempt + 1) r e'
         (rest.1, rest.2.1 + 1, delay * (attempt + 1) :: rest.2.2)) := rfl

/-- Shifting the attempt index under the backoff list. -/
theorem backoffList_shift (delay attempt m : Nat) :
    (List.range (m + 1)).map (fun i => delay * (attempt + i + 1)) =
      delay * (attempt + 1) ::
        (List.range m).map (fun i => delay * (attempt + 1 + i + 1)) := by
  rw [List.range_succ_eq_map, List.map_cons, List.map_map]
  refine congrArg₂ List.cons (by simp) (List.map_congr_left ?_)
  intro i _
  simp only [Function.comp_apply, Nat.succ_eq_add_one]
  ring_nf

/-- Success run of the retry loop: `m` failing invocations starting at index
`attempt`, then a success, with a linear-backoff sleep after each failure. -/
theorem retryGo_ok (fn : Nat → Except ε τ) (delay : Nat) (v : τ) :
    ∀ (m attempt remaining : Nat) (e : ε),
      (∀ i, i < m → ∃ e', fn (attempt + i) = .error e') →
      fn (attempt + m) = .ok v → m < remaining →
      retryGo fn delay attempt remaining e =
        (.ok v, m + 1, (List.range m).map (fun i => delay * (attempt + i + 1))) := by
  intro m
  induction m with
  | zero =>
    intro attempt remaining e _ hsucc hrem
    match remaining, hrem with
    | r + 1, _ =>
      simp only [Nat.add_zero] at hsucc
      rw [retryGo_succ_eq]
      simp [hsucc]
  | succ m ih =>
    intro attempt remaining e hfail hsucc hrem
    match remaining, hrem with
    | r + 1, _ =>
      obtain ⟨e', he'⟩ := hfail 0 (Nat.succ_pos m)
      simp only [Nat.add_zero] at he'
      have hfail' : ∀ i, i < m → ∃ e'', fn (attempt + 1 + i) = .error e'' := by
        intro i hi
        have := hfail (i + 1) (by omega)
        rwa [show attempt + (i + 1) = attempt + 1 + i by omega] at this
      have hsucc' : fn (attempt + 1 + m) = .ok v := by
        rwa [show attempt + (m + 1) = attempt + 1 + m by omega] at hsucc
      have hrec := ih (attempt + 1) r e' hfail' hsucc' (by omega)
      rw [retryGo_succ_eq]
      simp only [he']
      rw [hrec, backoffList_shift]

/-- **C5.** With `attempts ≥ 1` and an operation failing on the first `k - 1`
invocations and succeeding on the `k`-th (`k ≤ attempts`), `retryRequest`
invokes the operation exactly `k` times, returns the success, and the induced
delays are exactly `delay * 1, …, delay * (k-1)` before retries — no sleep
follows the success. -/
theorem C5_retry_linear_backoff (fn : Nat → Except ε τ)
    (attempts delay k : Nat) (v : τ) (e₀ : ε)
    (hk1 : 1 ≤ k) (hk : k ≤ attempts)
    (hfail : ∀ i, i < k - 1 → ∃ e, fn i = .error e)
    (hsucc : fn (k - 1) = .ok v) :
    retryRequest fn attempts delay e₀ =
      (.ok v, k, (List.range (k - 1)).map (fun i => delay * (i + 1))) := by
  have h := retryGo_ok fn delay v (k - 1) 0 attempts e₀
    (fun i hi => by simpa using hfail i hi) (by simpa using hsucc) (by omega)
  rw [retryRequest, h, Nat.sub_add_cancel hk1]
  simp

/-- Witness for C5 at the spec's own example: `attempts = 3, delay = 100`,
two failures then success yields exactly 3 invocations, the successful value,
and `100 + 200 = 300` ms of induced delay. -/
theorem C5_retry_linear_backoff_witness :
    retryRequest (fun i => if i < 2 then Except.error "boom" else Except.ok 7)
        3 100 "init" = (Except.ok 7, 3, [100, 200]) ∧ 100 + 200 = 300 := by
  refine ⟨?_, rfl⟩
  have h := C5_retry_linear_backoff
    (fun i => if i < 2 then Except.error "boom" else Except.ok 7)
    3 100 3 7 "init" (by omega) (by omega)
    (fun i hi => ⟨"boom", by simp [show i < 2 by omega]⟩)
    (by norm_num)
  simpa using h

/-- Exhausting run of the retry loop: every attempt fails, the error carried
out is the one from the final invocation. -/
theorem retryGo_err (fn : Nat → Except ε τ) (delay : Nat) (errs : Nat → ε) :
    ∀ (remaining attempt : Nat) (e : ε),
      1 ≤ remaining →
      (∀ i, i < remaining → fn (attempt + i) = .error (errs (attempt + i))) →
      retryGo fn delay attempt remaining e =
        (.error (errs (attempt + remaining - 1)), remaining,
          (List.range remaining).map (fun i => delay * (attempt + i + 1))) := by
  intro remaining
  induction remaining with
  | zero => omega
  | succ r ih =>
    intro attempt e _ hfail
    have he : fn attempt = .error (errs attempt) := by simpa using hfail 0 (by omega)
    match r with
    | 0 =>
      rw [retryGo_succ_eq]
      simp [he, retryGo_zero, List.range_succ]
    | r' + 1 =>
      have hfail' : ∀ i, i < r' + 1 →
          fn (attempt + 1 + i) = .error (errs (attempt + 1 + i)) := by
        intro i hi
        have := hfail (i + 1) (by omega)
        rwa [show attempt + (i + 1) = attempt + 1 + i by omega] at this
      have hrec := ih (attempt + 1) (errs attempt) (by omega) hfail'
      have hidx : attempt + 1 + (r' + 1) - 1 = attempt + (r' + 1 + 1) - 1 := by omega
      rw [retryGo_succ_eq]
      simp only [he]
      rw [hrec, hidx, backoffList_shift delay attempt (r' + 1)]

/-- **C8.** When every one of the `attempts ≥ 1` invocations fails,
`retryRequest` never resolves successfully and propagates exactly the failure
observed on the last invocation (index `attempts - 1`), not an earlier one. -/
theorem C8_retry_last_error (fn : Nat → Except ε τ) (attempts delay : Nat)
    (errs : Nat → ε) (e₀ : ε) (h1 : 1 ≤ attempts)
    (hfail : ∀ i, i < attempts → fn i = .error (errs i)) :
    retryRequest fn attempts delay e₀ =
      (.error (errs (attempts - 1)), attempts,
        (List.range attempts).map (fun i => delay * (i + 1))) := by
  have h := retryGo_err fn delay errs attempts 0 e₀ h1
    (fun i hi => by simpa using hfail i hi)
  rw [retryRequest, h]
  simp

/-- Witness for C8: three invocations failing with distinct errors
`"0"`, `"1"`, `"2"`; the propagated failure is `"2"` — the last, not the
first. -/
theorem C8_retry_last_error_witness :
    retryRequest (fun i => (Except.error (toString i) : Except String Nat))
        3 100 "init" = (Except.error "2", 3, [100, 200, 300]) ∧ "2" ≠ "0" := by
  refine ⟨?_, by decide⟩
  have h := C8_retry_last_error (fun i => (Except.error (toString i) : Except String Nat))
    3 100 (fun i => toString i) "init" (by omega) (fun i _ => rfl)
  simpa using h

/-! ## Claim C10: `invalidateAndRefetch` makes every entry fresh -/

theorem strExt (a b : String) (h : a.data = b.data) : a = b := by
  cases a
  cases b
  exact congrArg String.mk h

/-- Putting the namespace back in front of the stripped key recovers it. -/
theorem startsWith_append_drop (p k : String) (h : strStartsWith p k = true) :
    p ++ strDrop k (strLen p) = k := by
  obtain ⟨t, ht⟩ := List.isPrefixOf_iff_prefix.mp h
  apply strExt
  show p.data ++ k.data.drop p.data.length = k.data
  rw [← ht, List.drop_left]

theorem ALget_eq_none (k : String) (l : List (String × β))
    (h : k ∉ l.map Prod.fst) : ALget k l = none := by
  induction l with
  | nil => rfl
  | cons hd tl ih =>
    obtain ⟨k', v'⟩ := hd
    simp only [List.map_cons, List.mem_cons, not_or] at h
    have h1 : ¬ k' = k := fun he => h.1 he.symm
    simp [ALget, h1, ih h.2]

theorem ALget_of_mem_nodup (l : List (String × β)) (kv : String × β)
    (hm : kv ∈ l) (hnd : (l.map Prod.fst).Nodup) : ALget kv.1 l = some kv.2 := by
  induction l with
  | nil => cases hm
  | cons hd tl ih =>
    obtain ⟨k', v'⟩ := hd
    simp only [List.map_cons, List.nodup_cons] at hnd
    obtain ⟨hk', hnd'⟩ := hnd
    rcases List.mem_cons.mp hm with heq | hmem
    · subst heq
      simp [ALget]
    · have hne : ¬ k' = kv.1 := by
        intro he
        exact hk' (he ▸ List.mem_map_of_mem Prod.fst hmem)
      simp [ALget, hne, ih hmem hnd']

/-- Lookup after the timestamp-refresh fold over a duplicate-free work list:
keys of the work list come back stamped, all others keep their binding. -/
theorem ALget_stampAll (now : Nat) :
    ∀ (todo l : List (String × CacheEntry α)) (k : String),
      (todo.map Prod.fst).Nodup →
      ALget k (CacheManager.stampAll now todo l) =
        (match ALget k todo with
         | some e => some { e with timestamp := now }
         | none => ALget k l) := by
  intro todo
  induction todo with
  | nil => intro l k _; rfl
  | cons hd tl ih =>
    intro l k hnd
    obtain ⟨k', e'⟩ := hd
    simp only [List.map_cons, List.nodup_cons] at hnd
    obtain ⟨hk', hnd'⟩ := hnd
    have hstep : CacheManager.stampAll now ((k', e') :: tl) l =
        CacheManager.stampAll now tl (ALset k' { data := e'.data, timestamp := now } l) := rfl
    rw [hstep, ih (ALset k' { data := e'.data, timestamp := now } l) k hnd']
    by_cases hk : k' = k
    · subst hk
      have hnone : ALget k' tl = none := ALget_eq_none _ _ hk'
      simp [ALget, hnone, ALget_ALset]
    · cases h : ALget k tl with
      | some e => simp [ALget, hk, h]
      | none => simp [ALget, hk, h, ALget_ALset]

/-- The phase-(a) fold of `invalidateAndRefetch`, specialised to a
memory-backed manager: only the manager's own map changes. -/
theorem foldl_cacheSet_mem (isClient : Bool) (now : Nat) :
    ∀ (todo : List (String × CacheEntry α)) (m : CacheManager α) (ls : LocalStore α),
      m.strategy ≠ .localStorage →
      todo.foldl (fun st kv => CacheManager.cacheSet st.1 st.2 isClient kv.1
        { data := kv.2.data, timestamp := now }) (m, ls) =
      ({ m with mem := CacheManager.stampAll now todo m.mem }, ls) := by
  intro todo
  induction todo with
  | nil => intro m ls _; rfl
  | cons hd tl ih =>
    intro m ls h
    simp only [List.foldl_cons]
    have hset : CacheManager.cacheSet m ls isClient hd.1 { data := hd.2.data, timestamp := now } =
        ({ m with mem := ALset hd.1 { data := hd.2.data, timestamp := now } m.mem }, ls) := by
      simp [CacheManager.cacheSet, MemoryStorage.set, h]
    rw [hset]
    exact (ih { m with mem := ALset hd.1 { data := hd.2.data, timestamp := now } m.mem }
      ls h).trans rfl

/-- The phase-(a) fold, specialised to a `local-storage` manager in a browser
context: only the shared browser storage changes, under namespaced keys. -/
theorem foldl_cacheSet_local (now : Nat) :
    ∀ (todo : List (String × CacheEntry α)) (m : CacheManager α) (ls : LocalStore α),
      m.strategy = .localStorage →
      todo.foldl (fun st kv => CacheManager.cacheSet st.1 st.2 true kv.1
        { data := kv.2.data, timestamp := now }) (m, ls) =
      (m, CacheManager.stampAll now
        (todo.map (fun kv => (LocalStorage.keyNamespace ++ kv.1, kv.2))) ls) := by
  intro todo
  induction todo with
  | nil => intro m ls _; rfl
  | cons hd tl ih =>
    intro m ls h
    simp only [List.foldl_cons]
    have hset : CacheManager.cacheSet m ls true hd.1 { data := hd.2.data, timestamp := now } =
        (m, ALset (LocalStorage.keyNamespace ++ hd.1) { data := hd.2.data, timestamp := now } ls) := by
      simp [CacheManager.cacheSet, LocalStorage.set, h]
    rw [hset, ih _ _ h]
    rfl

/-- `filterMap` of a guarded `some` is a filtered `map`. -/
theorem filterMap_guard_map (p : γ → Bool) (g : γ → δ) (l : List γ) :
    l.filterMap (fun a => if p a then some (g a) else none) =
      (l.filter p).map g := by
  induction l with
  | nil => rfl
  | cons hd tl ih =>
    by_cases hp : p hd <;> simp [List.filterMap_cons, List.filter_cons, hp, ih]

/-- In a duplicate-free browser storage, `LocalStorage.forEach` visits exactly
the namespaced entries, keys stripped. -/
theorem LocalStorage.entries_eq_filter (ls : LocalStore α)
    (hnd : (ls.map Prod.fst).Nodup) :
    LocalStorage.entries ls true =
      (ls.filter (fun kv => strStartsWith LocalStorage.keyNamespace kv.1)).map
        (fun kv => (strDrop kv.1 (strLen LocalStorage.keyNamespace), kv.2)) := by
  unfold LocalStorage.entries
  rw [if_pos rfl]
  have hcg : ∀ kv ∈ ls,
      (fun kv : String × CacheEntry α =>
        if strStartsWith LocalStorage.keyNamespace kv.1 then
          (ALget kv.1 ls).map
            (fun e => (strDrop kv.1 (strLen LocalStorage.keyNamespace), e))
        else none) kv =
      (fun kv : String × CacheEntry α =>
        if strStartsWith LocalStorage.keyNamespace kv.1 then
          some (strDrop kv.1 (strLen LocalStorage.keyNamespace), kv.2)
        else none) kv := by
    intro kv hkv
    by_cases hp : strStartsWith LocalStorage.keyNamespace kv.1
    · simp [hp, ALget_of_mem_nodup ls kv hkv hnd]
    · simp [hp]
  rw [List.filterMap_congr hcg]
  exact filterMap_guard_map _ _ ls

/-- Filtering on a key predicate satisfied by `k` does not change `k`'s lookup. -/
theorem ALget_filter (p : String → Bool) (k : String) (hp : p k = true) :
    ∀ l : List (String × β),
      ALget k (l.filter (fun kv => p kv.1)) = ALget k l := by
  intro l
  induction l with
  | nil => rfl
  | cons hd tl ih =>
    obtain ⟨k', v'⟩ := hd
    by_cases hpk : p k'
    · by_cases hk : k' = k
      · subst hk
        simp [List.filter_cons, ALget, hpk]
      · simp [List.filter_cons, ALget, hpk, hk, ih]
    · have hk : ¬ k' = k := by
        intro he
        rw [he, hp] at hpk
        exact hpk rfl
      simp [List.filter_cons, ALget, hpk, hk, ih]

/-- **C10.** Right after phase (a) of `invalidateAndRefetch` (before any
refetch callback is awaited), every stored entry carries timestamp `now`, so
`get` on any stored key reports `'fresh'` for every `staleTime` — the
operation makes entries fresher, not stale; and phase (b) awaits the refetch
callback exactly on the keys collected in phase (a), in iteration order
(no callback configured means no refetches). Duplicate-free backing stores
are assumed, as the `Map`/`localStorage` write operations maintain. -/
theorem C10_invalidateAndRefetch_freshens (m : CacheManager α)
    (ls : LocalStore α) (isClient : Bool) (now : Nat)
    (hmem : (m.mem.map Prod.fst).Nodup) (hls : (ls.map Prod.fst).Nodup) :
    (∀ key,
      CacheManager.get (CacheManager.invalidateAndRefetch m ls isClient now).1.1
        (CacheManager.invalidateAndRefetch m ls isClient now).1.2 isClient key now =
      (CacheManager.get m ls isClient key now).map
        (fun st => { st with timestamp := now, status := Freshness.fresh }))
    ∧ (CacheManager.invalidateAndRefetch m ls isClient now).2 =
        (if m.hasRefetch
         then (CacheManager.cacheEntries m ls isClient).map Prod.fst
         else []) := by
  refine ⟨?_, rfl⟩
  intro key
  by_cases hs : m.strategy = .localStorage
  · cases isClient with
    | false =>
      have hent : CacheManager.cacheEntries m ls false = [] := by
        simp [CacheManager.cacheEntries, LocalStorage.entries, hs]
      have hIR : (CacheManager.invalidateAndRefetch m ls false now).1 = (m, ls) := by
        show ((CacheManager.cacheEntries m ls false).foldl _ (m, ls)) = _
        rw [hent]
        rfl
      rw [hIR]
      simp [CacheManager.get, CacheManager.cacheGet, LocalStorage.get, hs]
    | true =>
      have hcE : CacheManager.cacheEntries m ls true = LocalStorage.entries ls true := by
        simp [CacheManager.cacheEntries, hs]
      have hmap : (CacheManager.cacheEntries m ls true).map
          (fun kv => (LocalStorage.keyNamespace ++ kv.1, kv.2)) =
          ls.filter (fun kv => strStartsWith LocalStorage.keyNamespace kv.1) := by
        rw [hcE, LocalStorage.entries_eq_filter ls hls, List.map_map]
        have hcg : ∀ kv ∈ ls.filter (fun kv =>
            strStartsWith LocalStorage.keyNamespace kv.1),
            ((fun kv => (LocalStorage.keyNamespace ++ kv.1, kv.2)) ∘
              (fun kv => (strDrop kv.1 (strLen LocalStorage.keyNamespace), kv.2))) kv = kv := by
          intro kv hkv
          have hp := (List.mem_filter.mp hkv).2
          simp only [Function.comp_apply]
          rw [startsWith_append_drop _ _ hp]
        rw [List.map_congr_left hcg]
        simp
      have hstate : (CacheManager.invalidateAndRefetch m ls true now).1 =
          (m, CacheManager.stampAll now
            (ls.filter (fun kv => strStartsWith LocalStorage.keyNamespace kv.1)) ls) := by
        show ((CacheManager.cacheEntries m ls true).foldl _ (m, ls)) = _
        rw [foldl_cacheSet_local now (CacheManager.cacheEntries m ls true) m ls hs, hmap]
      have hndf : ((ls.filter (fun kv =>
          strStartsWith LocalStorage.keyNamespace kv.1)).map Prod.fst).Nodup :=
        hls.sublist ((List.filter_sublist ls).map Prod.fst)
      have hpk : strStartsWith LocalStorage.keyNamespace
          (LocalStorage.keyNamespace ++ key) = true :=
        List.isPrefixOf_iff_prefix.mpr (List.prefix_append _ _)
      have hgetf := ALget_stampAll now
        (ls.filter (fun kv => strStartsWith LocalStorage.keyNamespace kv.1)) ls
        (LocalStorage.keyNamespace ++ key) hndf
      rw [ALget_filter _ _ hpk ls] at hgetf
      rw [hstate]
      simp only [CacheManager.get, CacheManager.cacheGet, LocalStorage.get, hs,
        if_pos rfl]
      rw [hgetf]
      cases h : ALget (LocalStorage.keyNamespace ++ key) ls with
      | none => simp
      | some e => simp [CacheManager.isStale, Nat.sub_self]
  · have hent : CacheManager.cacheEntries m ls isClient = m.mem := by
      simp [CacheManager.cacheEntries, MemoryStorage.entries, hs]
    have hstate : (CacheManager.invalidateAndRefetch m ls isClient now).1 =
        ({ m with mem := CacheManager.stampAll now m.mem m.mem }, ls) := by
      show ((CacheManager.cacheEntries m ls isClient).foldl _ (m, ls)) = _
      rw [hent, foldl_cacheSet_mem isClient now m.mem m ls hs]
    have hgetf := ALget_stampAll now m.mem m.mem key hmem
    rw [hstate]
    simp only [CacheManager.get, CacheManager.cacheGet, MemoryStorage.get, hs,
      if_neg hs]
    rw [hgetf]
    cases h : ALget key m.mem with
    | none => simp
    | some e => simp [CacheManager.isStale, Nat.sub_self]


/-- Witness for C10: a memory manager holding two stale entries (written at
time 0, staleTime 0, read at 5); after phase (a) both read fresh with
timestamp 5, and the refetch keys are exactly the stored keys in order. -/
theorem C10_invalidateAndRefetch_freshens_witness :
    (let m : CacheManager Nat :=
      { strategy := .memory, staleTime := 0, hasRefetch := true,
        mem := [("a", ⟨1, 0⟩), ("b", ⟨2, 0⟩)] }
     CacheManager.get (CacheManager.invalidateAndRefetch m [] true 5).1.1
        (CacheManager.invalidateAndRefetch m [] true 5).1.2 true "a" 5 =
      (CacheManager.get m [] true "a" 5).map
        (fun st => { st with timestamp := 5, status := Freshness.fresh })) ∧
    (let m : CacheManager Nat :=
      { strategy := .memory, staleTime := 0, hasRefetch := true,
        mem := [("a", ⟨1, 0⟩), ("b", ⟨2, 0⟩)] }
     (CacheManager.invalidateAndRefetch m [] true 5).2 = ["a", "b"]) := by
  constructor
  · exact (C10_invalidateAndRefetch_freshens
      { strategy := .memory, staleTime := 0, hasRefetch := true,
        mem := [("a", ⟨1, 0⟩), ("b", ⟨2, 0⟩)] }
      [] true 5 (by decide) (by decide)).1 "a"
  · exact rfl

/-! ## Claim C3: `invalidateQueries` -/

/-- **C3.** The claim says `invalidateQueries(routeName)` runs
`invalidateAndRefetch` + `clear` on the managers holding that route's entries.
In the code the managers map is keyed by the JSON fingerprint
`JSON.stringify({routeName, params, query})`, but the specific-route branch
looks the bare route name up as a map key, so it never finds a manager and
silently does nothing — contradicting the function's own doc comment and
examples. Evaluated at a concrete failing input: route `getUsers` has a
cached entry under its fingerprint key, yet `invalidateQueries "getUsers"`
leaves the state untouched and triggers no refetch, while
`invalidateQueries "all"` on the same state refetches and clears as
documented. -/
theorem C3_invalidateQueries_divergence :
    (cacheKey "getUsers" none none ≠ "getUsers")
    ∧ (ALget (cacheKey "getUsers" none none)
        [(cacheKey "getUsers" none none,
          ({ strategy := .memory, staleTime := 0, hasRefetch := true,
             mem := [(cacheKey "getUsers" none none, ⟨99, 5⟩)] } : CacheManager Nat))] =
        some { strategy := .memory, staleTime := 0, hasRefetch := true,
               mem := [(cacheKey "getUsers" none none, ⟨99, 5⟩)] })
    ∧ (invalidateQueries "getUsers"
        [(cacheKey "getUsers" none none,
          ({ strategy := .memory, staleTime := 0, hasRefetch := true,
             mem := [(cacheKey "getUsers" none none, ⟨99, 5⟩)] } : CacheManager Nat))]
        [] true 10 =
        ([(cacheKey "getUsers" none none,
          { strategy := .memory, staleTime := 0, hasRefetch := true,
            mem := [(cacheKey "getUsers" none none, ⟨99, 5⟩)] })], [], []))
    ∧ (invalidateQueries "all"
        [(cacheKey "getUsers" none none,
          ({ strategy := .memory, staleTime := 0, hasRefetch := true,
             mem := [(cacheKey "getUsers" none none, ⟨99, 5⟩)] } : CacheManager Nat))]
        [] true 10 =
        ([(cacheKey "getUsers" none none,
          { strategy := .memory, staleTime := 0, hasRefetch := true, mem := [] })],
         [], [cacheKey "getUsers" none none])) := by
  refine ⟨by decide, by decide, ?_, ?_⟩
  · have hne : ("getUsers" = "all") = False := by simp
    simp only [invalidateQueries, hne, if_false]
    have hget : ALget "getUsers"
        [(cacheKey "getUsers" none none,
          ({ strategy := .memory, staleTime := 0, hasRefetch := true,
             mem := [(cacheKey "getUsers" none none, ⟨99, 5⟩)] } : CacheManager Nat))] = none := by
      decide
    rw [hget]
  · decide

/-! ## Claim C6: fresh cache hit short-circuits the pipeline -/

/-- **C6.** When caching applies to a call (client-level cache config or the
per-call flag) and the managers map holds a manager for the computed key whose
`get` reports a fresh state, `request` returns the cached payload directly:
the state is untouched and the effects are empty — no fetch, no request
interceptor call, no response interceptor call. -/
theorem C6_fresh_hit_no_fetch (cfg : TeaConfig J) (route : RouteDef J α)
    (routeName : String) (params : Option (List (String × String)))
    (query : Option (List (String × Option String))) (body : Option String)
    (headers : List (String × String)) (cacheFlag : Bool)
    (fetchFn : Nat → String → TeaRequestConfig → FetchResponse J)
    (mgrs : Managers α) (ls : LocalStore α) (isClient : Bool) (now : Nat)
    (mgr : CacheManager α) (st : CacheState α)
    (hen : cfg.cache.isSome ∨ cacheFlag = true)
    (hmgr : ALget (cacheKey routeName params (query.map queryCanon)) mgrs = some mgr)
    (hfresh : CacheManager.get mgr ls isClient
      (cacheKey routeName params (query.map queryCanon)) now = some st)
    (hst : st.status = .fresh) :
    request cfg route routeName params query body headers cacheFlag fetchFn
      mgrs ls isClient now = (.ok st.data, mgrs, ls, {}) := by
  have hce : (cfg.cache.isSome || cacheFlag) = true := by
    rcases hen with h | h <;> simp [h]
  simp only [request, hce, if_true, hmgr, hfresh, hst, if_pos rfl]

/-- Witness for C6: a concrete fresh hit (entry written at 10, staleTime 5,
read at 12) returns the cached `42` with empty effects and unchanged state. -/
theorem C6_fresh_hit_no_fetch_witness :
    (let key := cacheKey "getUsers" none none
     let mgr : CacheManager Nat :=
       { strategy := .memory, staleTime := 5, hasRefetch := true,
         mem := [(key, ⟨42, 10⟩)] }
     request ({ baseUrl := "https://api.example.com" } : TeaConfig Nat)
        ({ method := "GET", path := "/users", parse := fun j => .ok j } : RouteDef Nat Nat)
        "getUsers" none none none [] true
        (fun _ _ _ => { ok := true, status := 200, statusText := "OK", json := none })
        [(key, mgr)] [] true 12 =
      (.ok 42, [(key, mgr)], [], {})) := by
  exact C6_fresh_hit_no_fetch
    ({ baseUrl := "https://api.example.com" } : TeaConfig Nat)
    ({ method := "GET", path := "/users", parse := fun j => .ok j } : RouteDef Nat Nat)
    "getUsers" none none none [] true
    (fun _ _ _ => { ok := true, status := 200, statusText := "OK", json := none })
    [(cacheKey "getUsers" none none,
      { strategy := .memory, staleTime := 5, hasRefetch := true,
        mem := [(cacheKey "getUsers" none none, ⟨42, 10⟩)] })]
    [] true 12
    { strategy := .memory, staleTime := 5, hasRefetch := true,
      mem := [(cacheKey "getUsers" none none, ⟨42, 10⟩)] }
    { data := 42, timestamp := 10, status := .fresh }
    (Or.inr rfl) (by decide) (by decide) rfl

/-! ## Claim C2: path placeholders -/

/-- **C2 (counterexample).** The claim predicts a `ParameterFailure` before
any network call when a placeholder value is missing. The code has no such
check: with route `/users/:id` and no `id` supplied, `parseRoute` leaves the
placeholder in the path and the pipeline goes straight to `fetch` — exactly
one fetch is issued, to the URL still containing `:id`, and the call does not
fail before it. -/
theorem C2_missing_param_no_failure :
    (parseRoute "/users/:id" none = "/users/:id")
    ∧ ((request ({ baseUrl := "https://api.example.com" } : TeaConfig Nat)
        ({ method := "GET", path := "/users/:id", parse := fun j => .ok j } :
          RouteDef Nat Nat)
        "getUser" none none none [] false
        (fun _ _ _ => { ok := true, status := 200, statusText := "OK", json := some 7 })
        [] [] true 0).2.2.2 =
      { fetchCount := 1, fetchedUrls := ["https://api.example.com/users/:id"],
        requestInterceptorCalls := 0, responseInterceptorCalls := 0 }) := by
  exact ⟨rfl, rfl⟩

/-- **C2 (amended).** When the placeholder value is supplied, `parseRoute`
substitutes it (percent-encoded) into the path — `/users/:id` with
`{id: "42"}` builds `/users/42`; when no value is supplied (no params object,
or an empty one), no failure is raised and the placeholder remains in the
path verbatim (the network call then proceeds, as the counterexample above
evaluates). -/
theorem C2_route_substitution_amended :
    (∀ v : String, parseRoute "/users/:id" (some [("id", v)]) =
      "/users/" ++ encodeURIComponent v)
    ∧ parseRoute "/users/:id" (some [("id", "42")]) = "/users/42"
    ∧ parseRoute "/users/:id" none = "/users/:id"
    ∧ parseRoute "/users/:id" (some []) = "/users/:id" := by
  refine ⟨?_, rfl, rfl, rfl⟩
  intro v
  show replaceFirst "/users/:id" ":id" (encodeURIComponent v) =
    "/users/" ++ encodeURIComponent v
  unfold replaceFirst
  rw [show splitFirst "/users/:id".data ":id".data =
    some ("/users/".data, []) from rfl]
  show "/users/" ++ encodeURIComponent v ++ "" = "/users/" ++ encodeURIComponent v
  rw [String.append_empty]

/-! ## Claim C7: the cache key is deterministic and collision-free

Strategy: a decoder (`decodeCacheKey`) recovers `(routeName, params, query)`
from the encoded key; the round trip gives injectivity. -/

theorem strMkData (s : String) : String.mk s.data = s := rfl

theorem hexVal_hexDigitLower : ∀ n, n < 16 → hexVal (hexDigitLower n) = some n := by
  decide

/-- One escaped character decodes back to itself, whatever follows. -/
theorem readUnit_escape (c : Char) (x : List Char) :
    readUnit (jsonEscapeChar c ++ x) = some (some c, x) := by
  by_cases h1 : c = '"'
  · subst h1
    simp [jsonEscapeChar, readUnit, readEscape, jsonUnescapeChar]
  by_cases h2 : c = '\\'
  · subst h2
    simp [jsonEscapeChar, readUnit, readEscape, jsonUnescapeChar]
  by_cases h3 : c = Char.ofNat 8
  · subst h3
    simp [jsonEscapeChar, readUnit, readEscape, jsonUnescapeChar]
  by_cases h4 : c = Char.ofNat 9
  · subst h4
    simp [jsonEscapeChar, readUnit, readEscape, jsonUnescapeChar]
  by_cases h5 : c = Char.ofNat 10
  · subst h5
    simp [jsonEscapeChar, readUnit, readEscape, jsonUnescapeChar]
  by_cases h6 : c = Char.ofNat 12
  · subst h6
    simp [jsonEscapeChar, readUnit, readEscape, jsonUnescapeChar]
  by_cases h7 : c = Char.ofNat 13
  · subst h7
    simp [jsonEscapeChar, readUnit, readEscape, jsonUnescapeChar]
  by_cases h8 : c.toNat < 32
  · have hesc : jsonEscapeChar c =
        ['\\', 'u', '0', '0', hexDigitLower (c.toNat / 16),
         hexDigitLower (c.toNat % 16)] := by
      simp [jsonEscapeChar, h1, h2, h3, h4, h5, h6, h7, h8]
    have hd1 := hexVal_hexDigitLower (c.toNat / 16) (by omega)
    have hd0 := hexVal_hexDigitLower (c.toNat % 16) (by omega)
    have hv0 : hexVal '0' = some 0 := rfl
    have harith : ((0 * 16 + 0) * 16 + c.toNat / 16) * 16 + c.toNat % 16
        = c.toNat := by omega
    have harith2 : c.toNat / 16 * 16 + c.toNat % 16 = c.toNat := by omega
    have harith3 : 16 * (c.toNat / 16) + c.toNat % 16 = c.toNat := by omega
    rw [hesc]
    simp [readUnit, readEscape, readHex, jsonUnescapeChar, hv0, hd1, hd0,
      harith, harith2, harith3, Char.ofNat_toNat]
  · have hesc : jsonEscapeChar c = [c] := by
      simp [jsonEscapeChar, h1, h2, h3, h4, h5, h6, h7, h8]
    rw [hesc]
    simp [readUnit, h1, h2]

/-- Round trip of the JSON string-body escaping: decoding the escaped body up
to a closing quote recovers the original characters and the rest. -/
theorem unescBody_round (l : List Char) :
    ∀ (t : List Char) (fuel : Nat), l.length < fuel →
      unescBody fuel (l.flatMap jsonEscapeChar ++ '"' :: t) = some (l, t) := by
  induction l with
  | nil =>
    intro t fuel hf
    match fuel, hf with
    | f + 1, _ =>
      show unescBody (f + 1) ('"' :: t) = some ([], t)
      simp [unescBody, readUnit]
  | cons c cs ih =>
    intro t fuel hf
    match fuel, hf with
    | f + 1, hf2 =>
      rw [List.flatMap_cons, List.append_assoc]
      have hr := readUnit_escape c (cs.flatMap jsonEscapeChar ++ '"' :: t)
      have hlen : cs.length < f := by
        have h := hf2
        simp only [List.length_cons] at h
        omega
      have hrec := ih t f hlen
      simp [unescBody, hr, hrec]

/-- Round trip of a full JSON string literal. -/
theorem parseJString_round (s : String) (t : List Char) (fuel : Nat)
    (hf : s.data.length < fuel) :
    parseJString fuel (jsonStringChars s ++ t) = some (s.data, t) := by
  show parseJString fuel ('"' :: (s.data.flatMap jsonEscapeChar ++ ['"']) ++ t) =
    some (s.data, t)
  rw [List.cons_append, List.append_assoc, List.singleton_append]
  show unescBody fuel (s.data.flatMap jsonEscapeChar ++ '"' :: t) = some (s.data, t)
  exact unescBody_round s.data t fuel hf

/-- Round trip of a non-empty member list followed by the closing brace. -/
theorem parsePairs_round :
    ∀ (ps : List (String × String)), ps ≠ [] →
    ∀ (t : List Char) (sfuel pfuel : Nat),
      ps.length ≤ pfuel →
      (∀ kv ∈ ps, kv.1.data.length < sfuel ∧ kv.2.data.length < sfuel) →
      parsePairs sfuel pfuel (jsonPairsChars ps ++ rbrace :: t) = some (ps, t) := by
  intro ps
  induction ps with
  | nil => intro h; exact absurd rfl h
  | cons p rest ih =>
    intro _ t sfuel pfuel hp hs
    obtain ⟨k, v⟩ := p
    match pfuel, hp with
    | pf + 1, hp2 =>
      have hk := (hs (k, v) (List.mem_cons_self _ _)).1
      have hv := (hs (k, v) (List.mem_cons_self _ _)).2
      have hcr : (rbrace = ',') = False := by decide
      cases rest with
      | nil =>
        have harr : jsonPairsChars [(k, v)] ++ rbrace :: t =
            jsonStringChars k ++ (':' :: (jsonStringChars v ++ rbrace :: t)) := by
          simp [jsonPairsChars, jsonPairChars, List.append_assoc]
        rw [harr]
        simp [parsePairs,
          parseJString_round k (':' :: (jsonStringChars v ++ rbrace :: t)) sfuel hk,
          parseJString_round v (rbrace :: t) sfuel hv, hcr]
      | cons q qs =>
        have harr : jsonPairsChars ((k, v) :: q :: qs) ++ rbrace :: t =
            jsonStringChars k ++ (':' :: (jsonStringChars v ++
              ',' :: (jsonPairsChars (q :: qs) ++ rbrace :: t))) := by
          simp [jsonPairsChars, jsonPairChars, List.append_assoc]
        rw [harr]
        have hrec := ih (by simp) t sfuel pf
          (by simp only [List.length_cons] at hp2 ⊢; omega)
          (fun kv hkv => hs kv (List.mem_cons_of_mem _ hkv))
        simp [parsePairs,
          parseJString_round k (':' :: (jsonStringChars v ++
            ',' :: (jsonPairsChars (q :: qs) ++ rbrace :: t))) sfuel hk,
          parseJString_round v (',' :: (jsonPairsChars (q :: qs) ++ rbrace :: t)) sfuel hv,
          hrec]

/-- Round trip of a JSON object of string members. -/
theorem parseObj_round (ps : List (String × String)) (t : List Char)
    (sfuel pfuel : Nat) (hp : ps.length ≤ pfuel)
    (hs : ∀ kv ∈ ps, kv.1.data.length < sfuel ∧ kv.2.data.length < sfuel) :
    parseObj sfuel pfuel (jsonObjChars ps ++ t) = some (ps, t) := by
  cases ps with
  | nil =>
    show parseObj sfuel pfuel (lbrace :: ([] ++ [rbrace]) ++ t) = some ([], t)
    simp [parseObj]
  | cons p rest =>
    obtain ⟨u, hu⟩ : ∃ u, jsonPairsChars (p :: rest) = '"' :: u := by
      cases rest <;> exact ⟨_, rfl⟩
    have harr : jsonObjChars (p :: rest) ++ t =
        lbrace :: (jsonPairsChars (p :: rest) ++ rbrace :: t) := by
      simp [jsonObjChars, List.append_assoc]
    have hqb : ('"' = rbrace) = False := by decide
    rw [harr, hu, List.cons_append]
    show parseObj sfuel pfuel (lbrace :: ('"' :: (u ++ rbrace :: t))) = _
    simp only [parseObj, if_pos rfl, hqb, if_false]
    have hre : ('"' : Char) :: (u ++ rbrace :: t) =
        jsonPairsChars (p :: rest) ++ rbrace :: t := by
      rw [hu, List.cons_append]
    rw [hre]
    exact parsePairs_round (p :: rest) (by simp) t sfuel pfuel hp hs

theorem dropLit_append (lit t : List Char) : dropLit lit (lit ++ t) = some t := by
  induction lit with
  | nil => rfl
  | cons c cs ih => simp [dropLit, ih]

theorem finishKey_end (sfuel pfuel : Nat) :
    finishKey sfuel pfuel [rbrace] = some (none, none) := rfl

theorem finishKey_params (sfuel pfuel : Nat) (x : List Char) :
    finishKey sfuel pfuel (paramsLitChars ++ x) =
      finishAfterParams sfuel pfuel (parseObj sfuel pfuel x) := rfl

theorem finishKey_query (sfuel pfuel : Nat) (x : List Char) :
    finishKey sfuel pfuel (queryLitChars ++ x) =
      finishQuery none (parseObj sfuel pfuel x) := rfl

theorem finishTail_end (sfuel pfuel : Nat) (ps : List (String × String)) :
    finishTail sfuel pfuel ps [rbrace] = some (some ps, none) := rfl

theorem finishTail_query (sfuel pfuel : Nat) (ps : List (String × String))
    (x : List Char) :
    finishTail sfuel pfuel ps (queryLitChars ++ x) =
      finishQuery (some ps) (parseObj sfuel pfuel x) := rfl

theorem finishQuery_done (po : Option (List (String × String)))
    (qs : List (String × String)) :
    finishQuery po (some (qs, [rbrace])) = some (po, some qs) := rfl

theorem finishAfterParams_some (sfuel pfuel : Nat)
    (pr : List (String × String) × List Char) :
    finishAfterParams sfuel pfuel (some pr) = finishTail sfuel pfuel pr.1 pr.2 := rfl

theorem decodeCacheKey_step (sfuel pfuel : Nat) (x : List Char) :
    decodeCacheKey sfuel pfuel
        (routeLitChars ++ x) =
      (match parseJString sfuel x with
       | none => none
       | some (rn, r1) =>
         (finishKey sfuel pfuel r1).map (fun pr => (⟨rn⟩, pr.1, pr.2))) := by
  show decodeCacheKey sfuel pfuel
      (routeLitChars ++ x) =
    (match parseJString sfuel x with
     | none => none
     | some (rn, r1) =>
       (finishKey sfuel pfuel r1).map (fun pr => (⟨rn⟩, pr.1, pr.2)))
  unfold decodeCacheKey
  rw [dropLit_append]

/-- The decoder recovers the three components of a cache key. -/
theorem decodeKey_round (r : String) (p q : Option (List (String × String)))
    (sfuel pfuel : Nat)
    (hr : r.data.length < sfuel)
    (hp : (p.getD []).length ≤ pfuel)
    (hq : (q.getD []).length ≤ pfuel)
    (hps : ∀ kv ∈ p.getD [], kv.1.data.length < sfuel ∧ kv.2.data.length < sfuel)
    (hqs : ∀ kv ∈ q.getD [], kv.1.data.length < sfuel ∧ kv.2.data.length < sfuel) :
    decodeCacheKey sfuel pfuel (cacheKeyChars r p q) = some (r, p, q) := by
  cases p with
  | none =>
    cases q with
    | none =>
      have harr : cacheKeyChars r none none =
          routeLitChars ++ (jsonStringChars r ++ [rbrace]) := by
        simp [cacheKeyChars, routeLitChars, List.append_assoc,
          List.cons_append, List.singleton_append]
      rw [harr, decodeCacheKey_step,
        parseJString_round r [rbrace] sfuel hr]
      rfl
    | some qs =>
      have harr : cacheKeyChars r none (some qs) =
          routeLitChars ++
            (jsonStringChars r ++
              (queryLitChars ++ (jsonObjChars qs ++ [rbrace]))) := by
        simp [cacheKeyChars, routeLitChars, queryLitChars, List.append_assoc,
          List.cons_append, List.singleton_append]
      rw [harr, decodeCacheKey_step,
        parseJString_round r (queryLitChars ++ (jsonObjChars qs ++ [rbrace])) sfuel hr]
      show (finishKey sfuel pfuel
          (queryLitChars ++ (jsonObjChars qs ++ [rbrace]))).map
          (fun pr => (⟨r.data⟩, pr.1, pr.2)) = some (r, none, some qs)
      rw [finishKey_query,
        parseObj_round qs [rbrace] sfuel pfuel (by simpa using hq) (by simpa using hqs),
        finishQuery_done]
      rfl
  | some ps =>
    cases q with
    | none =>
      have harr : cacheKeyChars r (some ps) none =
          routeLitChars ++
            (jsonStringChars r ++
              (paramsLitChars ++ (jsonObjChars ps ++ [rbrace]))) := by
        simp [cacheKeyChars, routeLitChars, paramsLitChars, List.append_assoc,
          List.cons_append, List.singleton_append]
      rw [harr, decodeCacheKey_step,
        parseJString_round r (paramsLitChars ++ (jsonObjChars ps ++ [rbrace])) sfuel hr]
      show (finishKey sfuel pfuel
          (paramsLitChars ++ (jsonObjChars ps ++ [rbrace]))).map
          (fun pr => (⟨r.data⟩, pr.1, pr.2)) = some (r, some ps, none)
      rw [finishKey_params,
        parseObj_round ps [rbrace] sfuel pfuel (by simpa using hp) (by simpa using hps),
        finishAfterParams_some, finishTail_end]
      rfl
    | some qs =>
      have harr : cacheKeyChars r (some ps) (some qs) =
          routeLitChars ++
            (jsonStringChars r ++
              (paramsLitChars ++ (jsonObjChars ps ++
                (queryLitChars ++ (jsonObjChars qs ++ [rbrace]))))) := by
        simp [cacheKeyChars, routeLitChars, paramsLitChars, queryLitChars,
          List.append_assoc, List.cons_append, List.singleton_append]
      rw [harr, decodeCacheKey_step,
        parseJString_round r _ sfuel hr]
      show (finishKey sfuel pfuel
          (paramsLitChars ++ (jsonObjChars ps ++
            (queryLitChars ++ (jsonObjChars qs ++ [rbrace]))))).map
          (fun pr => (⟨r.data⟩, pr.1, pr.2)) = some (r, some ps, some qs)
      rw [finishKey_params,
        parseObj_round ps (queryLitChars ++ (jsonObjChars qs ++ [rbrace]))
          sfuel pfuel (by simpa using hp) (by simpa using hps),
        finishAfterParams_some, finishTail_query,
        parseObj_round qs [rbrace] sfuel pfuel (by simpa using hq) (by simpa using hqs),
        finishQuery_done]
      rfl

theorem pairBound_length (ps : List (String × String)) :
    ps.length ≤ pairBound ps := by
  induction ps with
  | nil => simp [pairBound]
  | cons p rest ih =>
    simp only [pairBound, List.foldr_cons, List.length_cons] at *
    omega

theorem pairBound_mem (ps : List (String × String)) (kv : String × String)
    (h : kv ∈ ps) :
    kv.1.data.length < pairBound ps + 1 ∧
      kv.2.data.length < pairBound ps + 1 := by
  induction ps with
  | nil => cases h
  | cons p rest ih =>
    rcases List.mem_cons.mp h with heq | hm
    · subst heq
      simp only [pairBound, List.foldr_cons]
      omega
    · have := ih hm
      simp only [pairBound, List.foldr_cons] at *
      omega

/-- **C7 (amended).** The cache key is a pure function of
`(routeName, params, query)` — identical arguments, including the enumeration
order of the param/query entries, always give the identical key — and it is
collision-free: distinct `(routeName, params, query)` triples always produce
distinct key strings. (The original claim's stronger reading fails: entries
supplied in a different enumeration order are serialized in that order by
`JSON.stringify`, so order-permuted but logically equal param objects get
different keys — see the counterexample.) -/
theorem C7_cacheKey_injective (r r' : String)
    (p p' q q' : Option (List (String × String)))
    (h : cacheKey r p q = cacheKey r' p' q') : r = r' ∧ p = p' ∧ q = q' := by
  have hd : cacheKeyChars r p q = cacheKeyChars r' p' q' := congrArg String.data h
  have hbl1 := pairBound_length (p.getD [])
  have hbl2 := pairBound_length (q.getD [])
  have hbl3 := pairBound_length (p'.getD [])
  have hbl4 := pairBound_length (q'.getD [])
  have h1 := decodeKey_round r p q
    (r.data.length + r'.data.length + pairBound (p.getD []) + pairBound (q.getD [])
      + pairBound (p'.getD []) + pairBound (q'.getD []) + 1)
    (pairBound (p.getD []) + pairBound (q.getD [])
      + pairBound (p'.getD []) + pairBound (q'.getD []))
    (by omega) (by omega) (by omega)
    (fun kv hkv => by have := pairBound_mem _ kv hkv; omega)
    (fun kv hkv => by have := pairBound_mem _ kv hkv; omega)
  have h2 := decodeKey_round r' p' q'
    (r.data.length + r'.data.length + pairBound (p.getD []) + pairBound (q.getD [])
      + pairBound (p'.getD []) + pairBound (q'.getD []) + 1)
    (pairBound (p.getD []) + pairBound (q.getD [])
      + pairBound (p'.getD []) + pairBound (q'.getD []))
    (by omega) (by omega) (by omega)
    (fun kv hkv => by have := pairBound_mem _ kv hkv; omega)
    (fun kv hkv => by have := pairBound_mem _ kv hkv; omega)
  rw [hd] at h1
  rw [h1] at h2
  simpa using h2

/-- Witness for C7 (amended), applying the injectivity theorem at a concrete
key equation. -/
theorem C7_cacheKey_injective_witness :
    "getUsers" = "getUsers"
    ∧ (some [("a", "1")] : Option (List (String × String))) = some [("a", "1")]
    ∧ (none : Option (List (String × String))) = none :=
  C7_cacheKey_injective "getUsers" "getUsers"
    (some [("a", "1")]) (some [("a", "1")]) none none rfl

/-- **C7 (counterexample).** Two invocations whose params contain the same
key-value pairs (a permutation, the same finite map) but in a different
enumeration order produce *different* key strings, because `JSON.stringify`
serializes object members in insertion order — refuting "any two invocations
with identical route name, path-param values, and query values produce the
same key string". -/
theorem C7_cacheKey_order_counterexample :
    cacheKey "r" (some [("a", "1"), ("b", "2")]) none ≠
      cacheKey "r" (some [("b", "2"), ("a", "1")]) none
    ∧ List.Perm [("a", "1"), ("b", "2")] [("b", "2"), ("a", "1")] := by
  exact ⟨by decide, by decide⟩

end Tea
